import Mathlib

/-!
Verification of the `yap annotate` pipeline (`src/annotate.rs`,
`src/openai/chat_api.rs`, `src/err.rs`).

Rust `String`/`&str` values are modelled as `List Char`; `usize` as `Nat`
(with explicit wrapping where release-mode overflow matters).  A document is
the list of its lines, as produced by `file_contents.split("\n")` for the
window selector and by `BufRead::lines` for the merge pass.
-/

namespace Yap

/-- Rust string contents, modelled as a list of characters. -/
abbrev RStr := List Char

/-- From `struct FileTypeInfo` in `src/annotate.rs`: the comment style.
`comment_start` and `comment_end` model the source's comment opening and
closing fields (kept free of reserved-word endings). -/
structure FileTypeInfo where
  comment_start : RStr
  comment_end : RStr
deriving DecidableEq

/-- From `FileTypeInfo::new`: missing style entries default to
`"// "` and `""` (`map_or` in the source). -/
def FileTypeInfo.new (pre suf : Option RStr) : FileTypeInfo :=
  { comment_start := pre.getD "// ".data, comment_end := suf.getD [] }

/-- The default comment style (`FileTypeInfo::new(None, None)`). -/
def yapDefaultInfo : FileTypeInfo := FileTypeInfo.new none none

/-- From `struct Annotation` in `src/annotate.rs` (called AnnotationRecord in
the specification's data model): one engine annotation. -/
structure AnnotationRecord where
  line_number : Nat
  content : RStr
deriving DecidableEq

/-- One more than `usize::MAX`. -/
def USIZE_MOD : Nat := 2 ^ 64

/-- Rust release-mode wrapping subtraction on `usize`, for `a, b < 2 ^ 64`. -/
def wrapping_sub (a b : Nat) : Nat := (a + USIZE_MOD - b) % USIZE_MOD

/-- From `annotate` in `src/annotate.rs`:
`file_contents.split("\n").skip(line_start).take(line_end.map(|v| v - line_start).unwrap_or(usize::MAX))`.
`lines` is the split document; the subtraction wraps (release semantics). -/
def selectWindow (lines : List RStr) (line_start : Nat) (line_end : Option Nat) :
    List RStr :=
  (lines.drop line_start).take
    (match line_end with
      | some v => wrapping_sub v line_start
      | none => USIZE_MOD - 1)

/-- From `annotate` in `src/annotate.rs`: the `enumerate().fold(...)` that
builds `target_contents`, appending for each windowed line the decimal
1-based index, one space, and the line — and nothing else (the source uses
`write!`, which adds no newline). -/
def encodeWindow (window : List RStr) : RStr :=
  window.enum.foldl (fun acc p => acc ++ (Nat.repr (p.1 + 1)).data ++ ' ' :: p.2) []

/-- From `annotate` in `src/annotate.rs`: the rebasing fold
`annotation.line_number += line_start` applied to every decoded record. -/
def rebase_annotations (line_start : Nat) (anns : List AnnotationRecord) :
    List AnnotationRecord :=
  anns.map fun a => { a with line_number := a.line_number + line_start }

/-- Helper for `rustLines`: the current segment is accumulated in reverse, so
removing a carriage return that sits right before the `\n` terminator means
dropping a leading `'\r'`. -/
def dropLeadCR : RStr → RStr
  | '\r' :: t => t
  | l => l

/-- Rust `str::lines`, the splitting used by `yapify_annotation_content`:
segments end at `\n` (a `\r` immediately before the `\n` is stripped), and a
final empty segment — from a trailing terminator or an empty string — is not
produced.  `acc` holds the current segment in reverse. -/
def rustLinesAux (acc : RStr) : RStr → List RStr
  | [] => if acc.isEmpty then [] else [acc.reverse]
  | c :: rest =>
    if c = '\n' then (dropLeadCR acc).reverse :: rustLinesAux [] rest
    else rustLinesAux (c :: acc) rest

/-- Rust `content.lines()` as a function on the character list. -/
def rustLines (s : RStr) : List RStr := rustLinesAux [] s

/-- The literal `"yap :: "` marker inserted by `yapify_annotation_content`. -/
def yapMarker : RStr := "yap :: ".data

/-- From `yapify_annotation_content` in `src/annotate.rs`: for each line of
the content, push the comment opening, `"yap :: "`, the line, the comment
closing and `'\n'`; finally pop the last character (trailing newline). -/
def yapify_annotation_content (content : RStr) (info : FileTypeInfo) : RStr :=
  ((rustLines content).foldl
    (fun out l =>
      out ++ info.comment_start ++ yapMarker ++ l ++ info.comment_end ++ ['\n'])
    []).dropLast

/-- The rendering of each content line before joining, i.e.
comment opening ++ `"yap :: "` ++ line ++ comment closing. -/
def renderedLines (content : RStr) (info : FileTypeInfo) : List RStr :=
  (rustLines content).map fun l =>
    info.comment_start ++ yapMarker ++ l ++ info.comment_end

/-- Join segments with single `'\n'` separators and no trailing newline. -/
def joinNL : List RStr → RStr
  | [] => []
  | [l] => l
  | l :: ls => l ++ '\n' :: joinNL ls

/-- From the loop in `apply_annotations` (`src/annotate.rs`): `pos` is the
0-based `enumerate` index.  When the head record satisfies
`pos + 1 == line_number`, the source writes `"{yapified}\n{line}\n"` and
advances the cursor; otherwise it writes `"{line}\n"` and keeps the cursor. -/
def applyFrom (info : FileTypeInfo) :
    List RStr → List AnnotationRecord → Nat → RStr
  | [], _, _ => []
  | l :: rest, [], pos => l ++ '\n' :: applyFrom info rest [] (pos + 1)
  | l :: rest, a :: anns, pos =>
    if pos + 1 = a.line_number then
      yapify_annotation_content a.content info ++
        '\n' :: (l ++ '\n' :: applyFrom info rest anns (pos + 1))
    else
      l ++ '\n' :: applyFrom info rest (a :: anns) (pos + 1)

/-- From `apply_annotations`: `annotations.sort_by_key(|a| a.line_number)`.
Rust's `sort_by_key` and Lean's `mergeSort` are both stable sorts. -/
def sortRecords (anns : List AnnotationRecord) : List AnnotationRecord :=
  anns.mergeSort fun a b => a.line_number ≤ b.line_number

/-- From `apply_annotations` in `src/annotate.rs`: sort the records by line
number, then stream the document once, producing the written byte buffer. -/
def apply_annotations (lines : List RStr) (anns : List AnnotationRecord)
    (info : FileTypeInfo) : RStr :=
  applyFrom info lines (sortRecords anns) 0

/-- Line count of an output buffer: every line `apply_annotations` writes is
`'\n'`-terminated, so the number of lines is the number of newlines. -/
def countNL (s : RStr) : Nat := s.count '\n'

/-- Plain split of a buffer at `'\n'` (keeping the final, possibly empty,
unterminated segment), used to read a written buffer back as lines. -/
def splitNL : RStr → List RStr
  | [] => [[]]
  | c :: rest =>
    if c = '\n' then [] :: splitNL rest
    else
      match splitNL rest with
      | [] => [[c]]
      | p :: ps => (c :: p) :: ps

/-- The buffer `apply_annotations` writes once no records remain: each line
followed by a newline. -/
def plainLines : List RStr → RStr
  | [] => []
  | l :: rest => l ++ '\n' :: plainLines rest

/-- From `enum Role` in `src/openai/mod.rs`. -/
inductive Role
  | system
  | user
  | assistant
deriving DecidableEq

/-- From `enum Oops` in `src/err.rs` (the variants the annotate decode path
can produce). -/
inductive Oops
  | OpenAIContentAndRefusal
  | OpenAIEmptyContent
  | AnnotateError
deriving DecidableEq

/-- From `struct Oopsie` in `src/err.rs`: an error kind with optional
context. -/
structure Oopsie where
  variant : Oops
  ctx : Option RStr
deriving DecidableEq

/-- From `struct Error` in `src/err.rs`: the ordered chain of causes. -/
structure YapError where
  oopsies : List Oopsie
deriving DecidableEq

/-- From `Error::wrap`: push a kind with no context. -/
def YapError.wrap (e : YapError) (o : Oops) : YapError :=
  { oopsies := e.oopsies ++ [{ variant := o, ctx := none }] }

/-- From `Error::because`: set the context of the most recent entry, if any. -/
def YapError.because (e : YapError) (c : RStr) : YapError :=
  { oopsies :=
      e.oopsies.dropLast ++
        (match e.oopsies.getLast? with
          | some o => [{ variant := o.variant, ctx := some c }]
          | none => []) }

/-- From `enum Content` in `src/openai/chat_api.rs`. -/
inductive Content
  | Normal (s : RStr)
  | Refusal (s : RStr)
deriving DecidableEq

/-- From `struct Message` in `src/openai/chat_api.rs`. -/
structure Message where
  role : Role
  content : Option RStr
  refusal : Option RStr
deriving DecidableEq

/-- From `Message::parse` in `src/openai/chat_api.rs`: the four-way match on
`(content, refusal)`. -/
def Message.parse (m : Message) : Except YapError Content :=
  match m.content, m.refusal with
  | some _, some _ => .error ((YapError.mk []).wrap .OpenAIContentAndRefusal)
  | some c, none => .ok (.Normal c)
  | none, some r => .ok (.Refusal r)
  | none, none => .error ((YapError.mk []).wrap .OpenAIEmptyContent)

/-- The literal context attached in `annotate` when `Message::parse` fails. -/
def couldNotParseCtx : RStr := "Could not parse OpenAi response content".data

/-- The literal text before the refusal in the refusal error message of
`annotate` (the source formats the refusal after this text). -/
def refusalCtxPre : RStr :=
  "OpenAI sent a refusal in response to your annotation request: ".data

/-- From `annotate` in `src/annotate.rs` (the decode steps after the HTTP
call): `message.parse()` with its `map_err` wrapping, then the match turning
a `Refusal` into an error carrying the refusal text. -/
def decodeAnnotationStr (m : Message) : Except YapError RStr :=
  match m.parse with
  | .error e => .error ((e.wrap .AnnotateError).because couldNotParseCtx)
  | .ok (.Normal c) => .ok c
  | .ok (.Refusal r) =>
      .error (((YapError.mk []).wrap .AnnotateError).because (refusalCtxPre ++ r))

/-! ## Theorems -/

/-- C1: the rebasing step does not implement
`absolute = window_relative + (window.start − 1)`.  The source adds
`line_start` itself, so with `line_start = 1` the window-relative record at
line 1 is rebased to absolute line 2, while the claimed contract requires it
to map to absolute line 1. -/
theorem c1_rebase_eval :
    rebase_annotations 1 [⟨1, "note".data⟩] = [⟨2, "note".data⟩] ∧
    rebase_annotations 5 [⟨1, "note".data⟩] = [⟨6, "note".data⟩] := by
  constructor <;> rfl

/-- C2: the window selector does not return the 1-based inclusive range
`[start, end]`.  The source skips `line_start` whole lines, so with the CLI
default `line_start = 1` the first document line is excluded, and with
`start = end = 1` (a one-line window under the claimed contract) the window
is empty. -/
theorem c2_window_eval :
    selectWindow ["a".data, "b".data, "c".data] 1 none = ["b".data, "c".data] ∧
    selectWindow ["a".data, "b".data] 1 (some 1) = [] := by
  constructor <;> decide

/-- C3 (counterexample): with `end = 1 < 2 = start` the selector reports no
error at all; it produces a (here nonempty) window, because the take count
`end - line_start` wraps around. -/
theorem c3_counterexample :
    selectWindow ["a".data, "b".data, "c".data, "d".data, "e".data] 2 (some 1) =
      ["c".data, "d".data, "e".data] := by
  decide

/-- C3 (amended): for `end < start` there is no `WindowRangeError` and no
failure. Under release-mode wrapping semantics the take count becomes
`2 ^ 64 - (start - end)`, which (for any document of realistic length)
takes everything, so the window runs from line `start + 1` to the end of the
document. -/
theorem c3_amended (lines : List RStr) (s e : Nat) (h : e < s)
    (hs : s < USIZE_MOD) (hlen : lines.length + (s - e) ≤ USIZE_MOD) :
    selectWindow lines s (some e) = lines.drop s := by
  have hM : USIZE_MOD = 18446744073709551616 := by norm_num [USIZE_MOD]
  unfold selectWindow wrapping_sub
  have h1 : (e + USIZE_MOD - s) % USIZE_MOD = USIZE_MOD - (s - e) := by
    rw [Nat.mod_eq_of_lt (by omega)]
    omega
  simp only [h1]
  apply List.take_of_length_le
  rw [List.length_drop]
  omega

theorem c3_amended_witness :
    (1 : Nat) < 2 ∧ (2 : Nat) < USIZE_MOD ∧
    (["a".data, "b".data, "c".data] : List RStr).length + (2 - 1) ≤ USIZE_MOD ∧
    selectWindow ["a".data, "b".data, "c".data] 2 (some 1) =
      (["a".data, "b".data, "c".data] : List RStr).drop 2 :=
  ⟨by decide, by decide, by decide,
    c3_amended ["a".data, "b".data, "c".data] 2 1 (by decide) (by decide) (by decide)⟩

/-- C4: the prompt numbering encoder does not keep the window's lines as
distinct physical lines.  The source appends `index ++ " " ++ line` with no
newline (`write!`, not `writeln!`), so the entire window collapses into a
single physical line of the blob. -/
theorem c4_encode_eval :
    encodeWindow ["hello".data, "world".data] = "1 hello2 world".data ∧
    countNL (encodeWindow ["hello".data, "world".data]) = 0 := by
  constructor <;> decide

/-- C10: the cursor of the merge pass advances only on an exact match, so as
soon as the head record's `line_number` is at or below the current position
it can never match again; the merge then copies every remaining document
line unchanged and silently drops that record together with every record
after it (including records whose line numbers are still ahead and within
the document). -/
theorem c10_stuck_cursor_drop (info : FileTypeInfo) (lines : List RStr)
    (a : AnnotationRecord) (rest : List AnnotationRecord) (pos : Nat)
    (h : a.line_number ≤ pos) :
    applyFrom info lines (a :: rest) pos = plainLines lines := by
  induction lines generalizing pos with
  | nil => rfl
  | cons l ls ih =>
    rw [applyFrom, if_neg (by omega), ih (pos + 1) (by omega), plainLines]

/-- `splitNL` always yields at least one segment. -/
theorem splitNL_ne_nil (s : RStr) : splitNL s ≠ [] := by
  match s with
  | [] => simp [splitNL]
  | c :: rest =>
    rw [splitNL]
    split
    · simp
    · split <;> simp

/-- Splitting distributes over an explicit newline separator. -/
theorem splitNL_append (a b : RStr) :
    splitNL (a ++ '\n' :: b) = splitNL a ++ splitNL b := by
  induction a with
  | nil => simp [splitNL]
  | cons c a ih =>
    by_cases hc : c = '\n'
    · subst hc
      rw [List.cons_append, splitNL, if_pos rfl, ih, splitNL, if_pos rfl,
        List.cons_append]
    · rw [List.cons_append, splitNL, if_neg hc, ih, splitNL, if_neg hc]
      cases h : splitNL a with
      | nil => exact absurd h (splitNL_ne_nil a)
      | cons p ps => simp

/-- A newline-free buffer is a single segment. -/
theorem splitNL_no_nl {l : RStr} (h : '\n' ∉ l) : splitNL l = [l] := by
  induction l with
  | nil => rfl
  | cons c t ih =>
    have hc : ¬c = '\n' := fun hc => h (hc ▸ List.mem_cons_self c t)
    rw [splitNL, if_neg hc, ih fun hm => h (List.mem_cons_of_mem c hm)]

/-- The merge pass keeps the original document lines, in order, as a
sublist of the output lines. -/
theorem applyFrom_sublist (info : FileTypeInfo) (lines : List RStr)
    (anns : List AnnotationRecord) (pos : Nat)
    (hl : ∀ l ∈ lines, '\n' ∉ l) :
    lines.Sublist (splitNL (applyFrom info lines anns pos)) := by
  induction lines generalizing anns pos with
  | nil => simp
  | cons l ls ih =>
    have hln : '\n' ∉ l := hl l (List.mem_cons_self _ _)
    have hls : ∀ x ∈ ls, '\n' ∉ x := fun x hx => hl x (List.mem_cons_of_mem _ hx)
    match anns with
    | [] =>
      rw [applyFrom, splitNL_append, splitNL_no_nl hln]
      exact (ih [] (pos + 1) hls).cons₂ l
    | a :: t =>
      by_cases hm : pos + 1 = a.line_number
      · rw [applyFrom, if_pos hm, splitNL_append, splitNL_append,
          splitNL_no_nl hln]
        exact ((ih t (pos + 1) hls).cons₂ l).trans
          (List.sublist_append_right _ _)
      · rw [applyFrom, if_neg hm, splitNL_append, splitNL_no_nl hln]
        exact (ih (a :: t) (pos + 1) hls).cons₂ l

/-- C5: the merge pass preserves the original document: provided the
document's lines are genuine lines (newline-free, as `BufRead::lines`
produces them), the original lines occur unmodified, in their original
relative order, as a sublist of the merged output's lines — only comment
lines are inserted, none removed or reordered — and whenever the head
record's `line_number` equals the current 1-based position, its formatted
rendering is emitted immediately before that unmodified line. -/
theorem c5_merge_preserves_document (lines : List RStr)
    (anns : List AnnotationRecord) (info : FileTypeInfo)
    (hl : ∀ l ∈ lines, '\n' ∉ l) :
    lines.Sublist (splitNL (apply_annotations lines anns info)) ∧
    (∀ (l : RStr) (ls : List RStr) (a : AnnotationRecord)
        (t : List AnnotationRecord) (pos : Nat),
      pos + 1 = a.line_number → '\n' ∉ l →
      splitNL (applyFrom info (l :: ls) (a :: t) pos) =
        splitNL (yapify_annotation_content a.content info) ++
          l :: splitNL (applyFrom info ls t (pos + 1))) := by
  constructor
  · exact applyFrom_sublist info lines (sortRecords anns) 0 hl
  · intro l ls a t pos hm hln
    rw [applyFrom, if_pos hm, splitNL_append, splitNL_append, splitNL_no_nl hln]
    rfl

theorem c5_witness :
    (∀ l ∈ (["#!/bin/sh".data, "".data, "echo hi".data] : List RStr), '\n' ∉ l) ∧
    (["#!/bin/sh".data, "".data, "echo hi".data] : List RStr).Sublist
      (splitNL (apply_annotations ["#!/bin/sh".data, "".data, "echo hi".data]
        [⟨3, "prints hi".data⟩] yapDefaultInfo)) :=
  ⟨by decide,
    (c5_merge_preserves_document ["#!/bin/sh".data, "".data, "echo hi".data]
      [⟨3, "prints hi".data⟩] yapDefaultInfo (by decide)).1⟩

/-- Sorting an already `line_number`-sorted record list is the identity
(`mergeSort_of_sorted`). -/
theorem sortRecords_of_sorted {l : List AnnotationRecord}
    (h : l.Pairwise fun a b => a.line_number ≤ b.line_number) :
    sortRecords l = l :=
  List.mergeSort_of_sorted (h.imp fun hab => decide_eq_true hab)

/-- The output of `sortRecords` is sorted by `line_number`. -/
theorem sortRecords_sorted (l : List AnnotationRecord) :
    (sortRecords l).Pairwise fun a b => a.line_number ≤ b.line_number := by
  have h := @List.sorted_mergeSort AnnotationRecord
    (fun a b => a.line_number ≤ b.line_number)
    (fun a b c hab hbc => by
      simp only [decide_eq_true_eq] at hab hbc ⊢
      omega)
    (fun a b => by
      simpa using Nat.le_total a.line_number b.line_number) l
  exact h.imp fun hab => by simpa using hab

/-- Two permuted record lists with pairwise-distinct line numbers sort to
the same sequence: a sorted permutation with distinct keys is unique. -/
theorem sortRecords_eq_of_perm {l₁ l₂ : List AnnotationRecord}
    (hp : l₁.Perm l₂) (hnodup : (l₁.map fun a => a.line_number).Nodup) :
    sortRecords l₁ = sortRecords l₂ := by
  haveI : IsAntisymm AnnotationRecord
      (fun a b => a.line_number < b.line_number) :=
    ⟨fun a b hab hba => absurd hba (Nat.lt_asymm hab)⟩
  have hperm : (sortRecords l₁).Perm (sortRecords l₂) :=
    ((List.mergeSort_perm l₁ _).trans hp).trans (List.mergeSort_perm l₂ _).symm
  have hn₁ : (sortRecords l₁).Pairwise
      fun a b => a.line_number ≠ b.line_number := by
    have hmap : ((sortRecords l₁).map fun a => a.line_number).Nodup :=
      (((List.mergeSort_perm l₁ _).map _).nodup_iff).mpr hnodup
    exact List.pairwise_map.mp hmap
  have hn₂ : (sortRecords l₂).Pairwise
      fun a b => a.line_number ≠ b.line_number :=
    (hperm.pairwise_iff fun hab => hab.symm).mp hn₁
  have hs₁ : (sortRecords l₁).Pairwise
      fun a b => a.line_number < b.line_number :=
    ((sortRecords_sorted l₁).and hn₁).imp
      fun hab => Nat.lt_of_le_of_ne hab.1 hab.2
  have hs₂ : (sortRecords l₂).Pairwise
      fun a b => a.line_number < b.line_number :=
    ((sortRecords_sorted l₂).and hn₂).imp
      fun hab => Nat.lt_of_le_of_ne hab.1 hab.2
  exact List.eq_of_perm_of_sorted hperm hs₁ hs₂

/-- C6 (counterexample): two records addressing the same line, submitted in
the two possible arrival orders, are permutations of one another yet merge
to different outputs: the stable sort keeps arrival order among equal line
numbers and the collision rule renders only the first record. -/
theorem c6_counterexample :
    ([⟨1, "x".data⟩, ⟨1, "y".data⟩] : List AnnotationRecord).Perm
      [⟨1, "y".data⟩, ⟨1, "x".data⟩] ∧
    apply_annotations ["a".data] [⟨1, "x".data⟩, ⟨1, "y".data⟩] yapDefaultInfo ≠
      apply_annotations ["a".data] [⟨1, "y".data⟩, ⟨1, "x".data⟩] yapDefaultInfo := by
  constructor
  · decide
  · have h1 : sortRecords [⟨1, "x".data⟩, ⟨1, "y".data⟩] =
        [⟨1, "x".data⟩, ⟨1, "y".data⟩] := sortRecords_of_sorted (by decide)
    have h2 : sortRecords [⟨1, "y".data⟩, ⟨1, "x".data⟩] =
        [⟨1, "y".data⟩, ⟨1, "x".data⟩] := sortRecords_of_sorted (by decide)
    unfold apply_annotations
    rw [h1, h2]
    decide

/-- C6 (amended): for annotation sets whose line numbers are pairwise
distinct, the merged output is identical for every permutation of the
arrival order, because sorting by line number then determines the sequence
uniquely. -/
theorem c6_order_independence (lines : List RStr)
    (anns anns' : List AnnotationRecord) (info : FileTypeInfo)
    (hperm : anns.Perm anns')
    (hnodup : (anns.map fun a => a.line_number).Nodup) :
    apply_annotations lines anns info = apply_annotations lines anns' info := by
  unfold apply_annotations
  rw [sortRecords_eq_of_perm hperm hnodup]

theorem c6_witness :
    ([⟨5, "first".data⟩, ⟨3, "second".data⟩] : List AnnotationRecord).Perm
      [⟨3, "second".data⟩, ⟨5, "first".data⟩] ∧
    (([⟨5, "first".data⟩, ⟨3, "second".data⟩] : List AnnotationRecord).map
      fun a => a.line_number).Nodup ∧
    apply_annotations ["a".data, "b".data, "c".data, "d".data, "e".data]
        [⟨5, "first".data⟩, ⟨3, "second".data⟩] yapDefaultInfo =
      apply_annotations ["a".data, "b".data, "c".data, "d".data, "e".data]
        [⟨3, "second".data⟩, ⟨5, "first".data⟩] yapDefaultInfo :=
  ⟨by decide, by decide,
    c6_order_independence ["a".data, "b".data, "c".data, "d".data, "e".data]
      [⟨5, "first".data⟩, ⟨3, "second".data⟩]
      [⟨3, "second".data⟩, ⟨5, "first".data⟩] yapDefaultInfo
      (by decide) (by decide)⟩

/-- Unfolding the accumulator of the `yapify_annotation_content` fold. -/
theorem foldl_yapify (info : FileTypeInfo) (L : List RStr) (acc : RStr) :
    L.foldl
      (fun out l =>
        out ++ info.comment_start ++ yapMarker ++ l ++ info.comment_end ++ ['\n'])
      acc =
      acc ++ (L.map fun l =>
        info.comment_start ++ yapMarker ++ l ++ info.comment_end ++ ['\n']).flatten := by
  induction L generalizing acc with
  | nil => simp
  | cons x t ih =>
    rw [List.foldl_cons, ih, List.map_cons, List.flatten_cons]
    simp [List.append_assoc]

/-- Concatenating newline-terminated segments and popping the last character
is exactly joining the segments with single newline separators. -/
theorem flatten_dropLast_eq_joinNL (L : List RStr) :
    ((L.map fun l => l ++ ['\n']).flatten).dropLast = joinNL L := by
  induction L with
  | nil => rfl
  | cons x t ih =>
    cases t with
    | nil => simp [joinNL]
    | cons y u =>
      rw [List.map_cons, List.flatten_cons,
        List.dropLast_append_of_ne_nil _ (by simp), ih]
      simp [joinNL, List.append_assoc]

/-- The comment formatter output is the per-line renderings joined by single
newlines, with no trailing newline. -/
theorem yapify_eq_joinNL (content : RStr) (info : FileTypeInfo) :
    yapify_annotation_content content info =
      joinNL (renderedLines content info) := by
  unfold yapify_annotation_content renderedLines
  rw [foldl_yapify, List.nil_append, ← flatten_dropLast_eq_joinNL,
    List.map_map]
  rfl

/-- No segment produced by `rustLinesAux` contains a newline. -/
theorem rustLinesAux_no_nl (s : RStr) : ∀ acc : RStr, '\n' ∉ acc →
    ∀ p ∈ rustLinesAux acc s, '\n' ∉ p := by
  induction s with
  | nil =>
    intro acc hacc p hp
    rw [rustLinesAux] at hp
    split at hp
    · exact absurd hp (List.not_mem_nil p)
    · rw [List.mem_singleton] at hp
      subst hp
      simpa using hacc
  | cons c rest ih =>
    intro acc hacc p hp
    rw [rustLinesAux] at hp
    by_cases hc : c = '\n'
    · rw [if_pos hc] at hp
      rcases List.mem_cons.mp hp with h | h
      · subst h
        rw [List.mem_reverse]
        intro hmem
        cases acc with
        | nil => simp [dropLeadCR] at hmem
        | cons a t =>
          by_cases ha : a = '\r'
          · subst ha
            exact hacc (List.mem_cons_of_mem _ (by simpa [dropLeadCR] using hmem))
          · refine hacc ?_
            have hid : dropLeadCR (a :: t) = a :: t := by
              cases t <;> simp_all [dropLeadCR]
            rw [hid] at hmem
            exact hmem
      · exact ih [] (List.not_mem_nil '\n') p h
    · rw [if_neg hc] at hp
      refine ih (c :: acc) ?_ p hp
      intro hmem
      rcases List.mem_cons.mp hmem with h | h
      · exact hc h.symm
      · exact hacc h

/-- No line of `rustLines s` contains a newline character. -/
theorem rustLines_no_nl (s : RStr) : ∀ p ∈ rustLines s, '\n' ∉ p :=
  rustLinesAux_no_nl s [] (List.not_mem_nil '\n')

/-- Length of the `rustLinesAux` output in terms of the newline count. -/
theorem rustLinesAux_length (s : RStr) : ∀ acc : RStr,
    (rustLinesAux acc s).length = s.count '\n' +
      (if s.getLast? = some '\n' then 0
       else if s = [] ∧ acc = [] then 0 else 1) := by
  induction s with
  | nil =>
    intro acc
    rw [rustLinesAux]
    cases acc <;> simp
  | cons c rest ih =>
    intro acc
    rw [rustLinesAux]
    by_cases hc : c = '\n'
    · subst hc
      rw [if_pos rfl, List.length_cons, ih [], List.count_cons]
      cases rest with
      | nil => simp
      | cons d u =>
        rw [List.getLast?_cons_cons]
        by_cases hl : (d :: u).getLast? = some '\n'
        · simp [hl]
        · simp [hl]
    · rw [if_neg hc, ih (c :: acc), List.count_cons]
      cases rest with
      | nil => simp [hc]
      | cons d u =>
        rw [List.getLast?_cons_cons]
        by_cases hl : (d :: u).getLast? = some '\n'
        · simp [hl, hc]
        · simp [hl, hc]

/-- For nonempty content that does not end in a newline, `rustLines` yields
exactly (newline count + 1) lines. -/
theorem rustLines_length (s : RStr) (hne : s ≠ [])
    (hlast : s.getLast? ≠ some '\n') :
    (rustLines s).length = s.count '\n' + 1 := by
  rw [rustLines, rustLinesAux_length s [], if_neg hlast]
  simp [hne]

/-- C8 (counterexample): the content `"a\n"` has one embedded line break, so
the claim demands two rendered lines; the source's `lines()` drops the final
terminator and renders a single line with no newline in the block. -/
theorem c8_counterexample :
    yapify_annotation_content ['a', '\n'] yapDefaultInfo = "// yap :: a".data ∧
    countNL (yapify_annotation_content ['a', '\n'] yapDefaultInfo) = 0 := by
  constructor <;> decide

/-- C8 (amended): every line the splitter produces is rendered as
comment-start ++ "yap :: " ++ line ++ comment-end, the lines are joined in
order by single newlines with no blank line inserted and no trailing blank
line; the "k embedded breaks give k + 1 rendered lines" law holds provided
the content is nonempty and does not end with a line break (Rust `lines()`
treats a final newline as an optional terminator, not a separator). -/
theorem c8_comment_formatter (content : RStr) (info : FileTypeInfo) :
    yapify_annotation_content content info =
      joinNL (renderedLines content info) ∧
    (content ≠ [] → content.getLast? ≠ some '\n' →
      (renderedLines content info).length = content.count '\n' + 1) := by
  refine ⟨yapify_eq_joinNL content info, fun h1 h2 => ?_⟩
  rw [renderedLines, List.length_map, rustLines_length content h1 h2]

theorem c8_witness :
    ("ab".data ++ '\n' :: "cd".data ≠ ([] : RStr)) ∧
    ("ab".data ++ '\n' :: "cd".data : RStr).getLast? ≠ some '\n' ∧
    (renderedLines ("ab".data ++ '\n' :: "cd".data) yapDefaultInfo).length =
      ("ab".data ++ '\n' :: "cd".data : RStr).count '\n' + 1 :=
  ⟨by decide, by decide,
    (c8_comment_formatter ("ab".data ++ '\n' :: "cd".data) yapDefaultInfo).2
      (by decide) (by decide)⟩

/-- With a newline-free comment style, every rendered comment line is
newline-free. -/
theorem renderedLines_no_nl (content : RStr) (info : FileTypeInfo)
    (hp : '\n' ∉ info.comment_start) (hs : '\n' ∉ info.comment_end) :
    ∀ r ∈ renderedLines content info, '\n' ∉ r := by
  intro r hr
  rw [renderedLines, List.mem_map] at hr
  obtain ⟨l, hl, rfl⟩ := hr
  have hln := rustLines_no_nl content l hl
  intro hmem
  simp only [List.append_assoc, List.mem_append] at hmem
  rcases hmem with h | h | h | h
  · exact hp h
  · exact (by decide : '\n' ∉ yapMarker) h
  · exact hln h
  · exact hs h

/-- Newline count of a join of newline-free segments. -/
theorem countNL_joinNL (L : List RStr) (h : ∀ l ∈ L, '\n' ∉ l) :
    countNL (joinNL L) = L.length - 1 := by
  induction L with
  | nil => rfl
  | cons x t ih =>
    cases t with
    | nil =>
      show countNL x = 0
      exact List.count_eq_zero.mpr (h x (List.mem_cons_self _ _))
    | cons y u =>
      have hx : countNL x = 0 :=
        List.count_eq_zero.mpr (h x (List.mem_cons_self _ _))
      have ht := ih fun l hl => h l (List.mem_cons_of_mem _ hl)
      show countNL (x ++ '\n' :: joinNL (y :: u)) = (y :: u).length
      rw [countNL, List.count_append, List.count_cons]
      rw [countNL] at hx ht
      simp only [List.length_cons] at ht ⊢
      simp only [beq_self_eq_true, if_true]
      omega

/-- Newline count of the formatter output, for well-behaved content and a
newline-free comment style: exactly the content's newline count. -/
theorem countNL_yapify (content : RStr) (info : FileTypeInfo)
    (hp : '\n' ∉ info.comment_start) (hs : '\n' ∉ info.comment_end)
    (hok : content = [] ∨ content.getLast? ≠ some '\n') :
    countNL (yapify_annotation_content content info) = content.count '\n' := by
  rw [yapify_eq_joinNL,
    countNL_joinNL _ (renderedLines_no_nl content info hp hs),
    renderedLines, List.length_map]
  by_cases hne : content = []
  · subst hne
    rfl
  · rcases hok with rfl | hok
    · exact absurd rfl hne
    · rw [rustLines_length _ hne hok]
      omega

/-- Newline count of one unmatched-line chunk. -/
theorem countNL_line_chunk (l B : RStr) (h : '\n' ∉ l) :
    countNL (l ++ '\n' :: B) = countNL B + 1 := by
  rw [countNL, List.count_append, List.count_cons,
    List.count_eq_zero.mpr h, countNL]
  simp

/-- The counting invariant of the merge pass: beginning at position `pos`
with records strictly ahead of the cursor and strictly ascending, the output
buffer holds one newline per document line plus `content newlines + 1` per
record whose line number lies within the remaining document. -/
theorem applyFrom_countNL (info : FileTypeInfo)
    (hp : '\n' ∉ info.comment_start) (hsuf : '\n' ∉ info.comment_end)
    (lines : List RStr) :
    ∀ (anns : List AnnotationRecord) (pos : Nat),
    (∀ l ∈ lines, '\n' ∉ l) →
    (∀ a ∈ anns, a.content = [] ∨ a.content.getLast? ≠ some '\n') →
    anns.Pairwise (fun x y => x.line_number < y.line_number) →
    (∀ a ∈ anns, pos < a.line_number) →
    countNL (applyFrom info lines anns pos) =
      lines.length +
        ((anns.filter fun a => a.line_number ≤ pos + lines.length).map
          fun a => a.content.count '\n' + 1).sum := by
  induction lines with
  | nil =>
    intro anns pos hl hc hpair hall
    have hfilter : (anns.filter fun a =>
        a.line_number ≤ pos + ([] : List RStr).length) = [] := by
      rw [List.filter_eq_nil_iff]
      intro a ha
      have := hall a ha
      simp only [List.length_nil, decide_eq_true_eq]
      omega
    rw [applyFrom, hfilter]
    rfl
  | cons l ls ih =>
    intro anns pos hl hc hpair hall
    have hln : '\n' ∉ l := hl l (List.mem_cons_self _ _)
    have hls : ∀ x ∈ ls, '\n' ∉ x := fun x hx => hl x (List.mem_cons_of_mem _ hx)
    match anns with
    | [] =>
      rw [applyFrom, countNL_line_chunk _ _ hln,
        ih [] (pos + 1) hls (by simp) List.Pairwise.nil (by simp)]
      simp
    | a :: t =>
      have hrel := (List.pairwise_cons.mp hpair).1
      have hpt := (List.pairwise_cons.mp hpair).2
      have hct : ∀ b ∈ t, b.content = [] ∨ b.content.getLast? ≠ some '\n' :=
        fun b hb => hc b (List.mem_cons_of_mem _ hb)
      by_cases hm : pos + 1 = a.line_number
      · rw [applyFrom, if_pos hm]
        have hY := countNL_yapify a.content info hp hsuf
          (hc a (List.mem_cons_self _ _))
        have hB := ih t (pos + 1) hls hct hpt
          (fun b hb => hm ▸ hrel b hb)
        have hfc : ((a :: t).filter fun x =>
            x.line_number ≤ pos + (l :: ls).length) =
            a :: (t.filter fun x => x.line_number ≤ pos + (l :: ls).length) := by
          refine List.filter_cons_of_pos ?_
          simp only [List.length_cons, decide_eq_true_eq]
          omega
        have hbound : pos + 1 + ls.length = pos + (l :: ls).length := by
          simp only [List.length_cons]
          omega
        rw [hbound] at hB
        simp only [countNL] at hY hB ⊢
        rw [List.count_append, List.count_cons, List.count_append,
          List.count_cons, List.count_eq_zero.mpr hln, hY, hB, hfc]
        simp only [List.length_cons, List.map_cons, List.sum_cons,
          beq_self_eq_true, if_true]
        omega
      · rw [applyFrom, if_neg hm, countNL_line_chunk _ _ hln]
        have hall' : ∀ b ∈ a :: t, pos + 1 < b.line_number := by
          intro b hb
          rcases List.mem_cons.mp hb with rfl | hbt
          · have := hall b (List.mem_cons_self _ _)
            omega
          · have h1 := hall a (List.mem_cons_self _ _)
            have h2 := hrel b hbt
            omega
        have hB := ih (a :: t) (pos + 1) hls hc hpair hall'
        have hbound : pos + 1 + ls.length = pos + (l :: ls).length := by
          simp only [List.length_cons]
          omega
        rw [hbound] at hB
        rw [hB]
        simp only [List.length_cons]
        omega

/-- C7 (amended): for a document of `N` newline-free lines, a strictly
ascending (hence duplicate-free) positive record sequence whose contents do
not end in a line break, and a newline-free comment style, the merged output
has exactly `N + Σ (k_r + 1)` lines, summed over the records with
`line_number ≤ N`; records beyond the document contribute nothing. -/
theorem c7_line_count_law (lines : List RStr) (anns : List AnnotationRecord)
    (info : FileTypeInfo)
    (hp : '\n' ∉ info.comment_start) (hsuf : '\n' ∉ info.comment_end)
    (hl : ∀ l ∈ lines, '\n' ∉ l)
    (hc : ∀ a ∈ anns, a.content = [] ∨ a.content.getLast? ≠ some '\n')
    (hsorted : anns.Pairwise fun x y => x.line_number < y.line_number)
    (hpos : ∀ a ∈ anns, 0 < a.line_number) :
    countNL (apply_annotations lines anns info) =
      lines.length +
        ((anns.filter fun a => a.line_number ≤ lines.length).map
          fun a => a.content.count '\n' + 1).sum := by
  unfold apply_annotations
  rw [sortRecords_of_sorted (hsorted.imp fun h => Nat.le_of_lt h)]
  have h := applyFrom_countNL info hp hsuf lines anns 0 hl hc hsorted hpos
  simpa using h

theorem c7_witness :
    (([⟨1, "hey".data⟩, ⟨2, "p\nq".data⟩] : List AnnotationRecord).Pairwise
      fun x y => x.line_number < y.line_number) ∧
    countNL (apply_annotations ["a".data, "b".data]
        [⟨1, "hey".data⟩, ⟨2, "p\nq".data⟩] yapDefaultInfo) =
      (["a".data, "b".data] : List RStr).length +
        ((([⟨1, "hey".data⟩, ⟨2, "p\nq".data⟩] : List AnnotationRecord).filter
          fun a => a.line_number ≤ (["a".data, "b".data] : List RStr).length).map
          fun a => a.content.count '\n' + 1).sum :=
  ⟨by decide,
    c7_line_count_law ["a".data, "b".data] [⟨1, "hey".data⟩, ⟨2, "p\nq".data⟩]
      yapDefaultInfo (by decide) (by decide) (by decide) (by decide)
      (by decide) (by decide)⟩

/-- C7 (counterexample): a sorted (non-strictly: duplicate line numbers)
record list violates the stated law — both records have `line_number 1 ≤ N`,
so the law demands `2 + 2 = 4` output lines, but the collision drop produces
only 3. -/
theorem c7_counterexample :
    (([⟨1, "x".data⟩, ⟨1, "y".data⟩] : List AnnotationRecord).Pairwise
      fun a b => a.line_number ≤ b.line_number) ∧
    countNL (apply_annotations ["a".data, "b".data]
        [⟨1, "x".data⟩, ⟨1, "y".data⟩] yapDefaultInfo) ≠
      (["a".data, "b".data] : List RStr).length +
        ((([⟨1, "x".data⟩, ⟨1, "y".data⟩] : List AnnotationRecord).filter
          fun a => a.line_number ≤ (["a".data, "b".data] : List RStr).length).map
          fun a => a.content.count '\n' + 1).sum := by
  constructor
  · decide
  · have h1 : sortRecords [⟨1, "x".data⟩, ⟨1, "y".data⟩] =
        [⟨1, "x".data⟩, ⟨1, "y".data⟩] := sortRecords_of_sorted (by decide)
    unfold apply_annotations
    rw [h1]
    decide

/-- C9: the decode step never coerces a bad engine message into a success
value: a message with both content and refusal decodes to the
`OpenAIContentAndRefusal` protocol error, one with neither decodes to the
`OpenAIEmptyContent` protocol error (both wrapped as `AnnotateError`, which
aborts the command), a refusal decodes to an error whose context carries the
refusal text, and a successful decode can only arise from a message with
content and no refusal. -/
theorem c9_decode_error_discipline (m : Message) :
    (∀ c r, m.content = some c → m.refusal = some r →
      decodeAnnotationStr m = .error
        ⟨[⟨.OpenAIContentAndRefusal, none⟩,
          ⟨.AnnotateError, some couldNotParseCtx⟩]⟩) ∧
    (m.content = none → m.refusal = none →
      decodeAnnotationStr m = .error
        ⟨[⟨.OpenAIEmptyContent, none⟩,
          ⟨.AnnotateError, some couldNotParseCtx⟩]⟩) ∧
    (∀ r, m.content = none → m.refusal = some r →
      decodeAnnotationStr m = .error
        ⟨[⟨.AnnotateError, some (refusalCtxPre ++ r)⟩]⟩) ∧
    (∀ s, decodeAnnotationStr m = .ok s →
      m.content = some s ∧ m.refusal = none) := by
  obtain ⟨role, mc, mr⟩ := m
  refine ⟨fun c r hc hr => ?_, fun hc hr => ?_, fun r hc hr => ?_,
    fun s hs => ?_⟩
  · subst hc; subst hr; rfl
  · subst hc; subst hr; rfl
  · subst hc; subst hr; rfl
  · cases mc with
    | none =>
      cases mr with
      | none => exact absurd hs (by simp [decodeAnnotationStr, Message.parse])
      | some r => exact absurd hs (by simp [decodeAnnotationStr, Message.parse])
    | some c =>
      cases mr with
      | some r => exact absurd hs (by simp [decodeAnnotationStr, Message.parse])
      | none =>
        have hcs : c = s := by
          have h := hs
          simp [decodeAnnotationStr, Message.parse] at h
          exact h
        exact ⟨by rw [hcs], rfl⟩

theorem c9_witness :
    decodeAnnotationStr ⟨.assistant, some "x".data, some "y".data⟩ = .error
      ⟨[⟨.OpenAIContentAndRefusal, none⟩,
        ⟨.AnnotateError, some couldNotParseCtx⟩]⟩ ∧
    decodeAnnotationStr ⟨.assistant, none, none⟩ = .error
      ⟨[⟨.OpenAIEmptyContent, none⟩,
        ⟨.AnnotateError, some couldNotParseCtx⟩]⟩ ∧
    decodeAnnotationStr ⟨.assistant, none, some "no".data⟩ = .error
      ⟨[⟨.AnnotateError, some (refusalCtxPre ++ "no".data)⟩]⟩ ∧
    (Message.mk .assistant (some "z".data) none).content = some "z".data ∧
    (Message.mk .assistant (some "z".data) none).refusal = none :=
  ⟨(c9_decode_error_discipline ⟨.assistant, some "x".data, some "y".data⟩).1
      "x".data "y".data rfl rfl,
   (c9_decode_error_discipline ⟨.assistant, none, none⟩).2.1 rfl rfl,
   (c9_decode_error_discipline ⟨.assistant, none, some "no".data⟩).2.2.1
      "no".data rfl rfl,
   (c9_decode_error_discipline ⟨.assistant, some "z".data, none⟩).2.2.2
      "z".data rfl⟩

theorem c10_witness :
    applyFrom yapDefaultInfo ["b".data, "c".data]
        [⟨1, "y".data⟩, ⟨2, "z".data⟩] 1 =
      plainLines ["b".data, "c".data] :=
  c10_stuck_cursor_drop yapDefaultInfo ["b".data, "c".data]
    ⟨1, "y".data⟩ [⟨2, "z".data⟩] 1 (by decide)

end Yap
